import Mathlib

set_option autoImplicit false

/-
Verification of the graph-store maintenance core of the GraphRag data
pipeline: the `clear_database` cleanup routine, the retrying statement
executor, the igraph construction helper, the multi-resolution Leiden
driver, the community statistics summary, and the SIMILAR_TO relationship
ingestion statement.

State-passing is made explicit: the behaviour of the graph store (which
statements succeed, what SHOW INDEXES / SHOW CONSTRAINTS return) is an
input, and each embedded routine returns the trace of statements it issued
to the store together with its log output and its result.
-/

/-- An error surfaced by the graph-store driver: the exception type name
together with its message. -/
structure StoreError where
  errType : String
  message : String
  deriving Repr, DecidableEq

/-- One statement issued to the graph store.  `detachDeleteAll` is the
single combined statement "MATCH (n) DETACH DELETE n;".  The two batched
constructors stand for the bounded per-batch deletion statements
("MATCH ()-[r]->() WITH r LIMIT batchSize DELETE r ..." and its node
analogue); they are part of the operation vocabulary so that theorems can
state whether a routine ever issues them. -/
inductive CypherOp where
  | detachDeleteAll
  | deleteRelationshipsBatch (batchSize : Nat)
  | deleteNodesBatch (batchSize : Nat)
  | showIndexes
  | dropIndex (name : String)
  | showConstraints
  | dropConstraint (name : String)
  deriving Repr, DecidableEq

/-- One record returned by SHOW INDEXES or SHOW CONSTRAINTS, as consumed by
`clear_database` via `idx.get("name")` and `idx.get("type", "")`: both
fields may be absent. -/
structure SchemaRecord where
  name : Option String
  type : Option String
  deriving Repr, DecidableEq

/-- A log event emitted through the Dagster context logger. -/
inductive LogEvent where
  | info (msg : String)
  | warning (msg : String)
  | error (msg : String)
  deriving Repr, DecidableEq

/-- The store's behaviour during one `clear_database` call: whether the
combined delete statement raises, what the two SHOW statements return (or
raise), and whether each individual drop statement raises. -/
structure StoreBehavior where
  deleteError : Option StoreError
  showIndexesResult : Except StoreError (List SchemaRecord)
  dropIndexError : String → Option StoreError
  showConstraintsResult : Except StoreError (List SchemaRecord)
  dropConstraintError : String → Option StoreError

/-- The observable outcome of one `clear_database` call: the statements
issued to the store in order, the log, and the result (`Except.error e`
embeds the Python call raising `e`). -/
structure ClearOutcome where
  trace : List CypherOp
  log : List LogEvent
  result : Except StoreError Unit

/-- Python truthiness of the `name` field: `None` and the empty string are
falsy, any other string is kept. -/
def truthyName : Option String → Option String
  | none => none
  | some s => if s = "" then none else some s

/-- ASCII lower-casing of a string, character by character: the behaviour
of Python str.lower on the ASCII schema-type strings this code meets. -/
def pyLower (s : String) : String :=
  ⟨s.data.map Char.toLower⟩

/-- The index-type filter of `clear_database`:
`idx.get("type", "").lower() in ["range", "point", "text", "btree"]`. -/
def droppableIndexType (t : Option String) : Bool :=
  let ty := pyLower (t.getD "")
  ty = "range" || ty = "point" || ty = "text" || ty = "btree"

/-- Body of the per-index loop of `clear_database`: if the record has a
truthy name and a droppable type, issue `DROP INDEX name`; a failure of
that statement is caught and logged as a warning, success is logged as
info.  Returns the statements issued and the log entries emitted. -/
def dropIndexStep (store : StoreBehavior) (r : SchemaRecord) :
    List CypherOp × List LogEvent :=
  match truthyName r.name with
  | none => ([], [])
  | some name =>
    if droppableIndexType r.type then
      match store.dropIndexError name with
      | none =>
        ([CypherOp.dropIndex name], [LogEvent.info ("Dropped index: " ++ name)])
      | some e =>
        ([CypherOp.dropIndex name],
         [LogEvent.warning ("Failed to drop index " ++ name ++ ": " ++ e.message)])
    else ([], [])

/-- Body of the per-constraint loop of `clear_database`: if the record has
a truthy name, issue `DROP CONSTRAINT name` (no type filter); a failure of
that statement is caught and logged as a warning. -/
def dropConstraintStep (store : StoreBehavior) (r : SchemaRecord) :
    List CypherOp × List LogEvent :=
  match truthyName r.name with
  | none => ([], [])
  | some name =>
    match store.dropConstraintError name with
    | none =>
      ([CypherOp.dropConstraint name],
       [LogEvent.info ("Dropped constraint: " ++ name)])
    | some e =>
      ([CypherOp.dropConstraint name],
       [LogEvent.warning ("Failed to drop constraint " ++ name ++ ": " ++ e.message)])

/-- Embedding of `clear_database` (src/data_pipeline/utils/neo4j_helpers.py):
inside one try block it (1) runs the single combined statement
"MATCH (n) DETACH DELETE n;", (2) runs SHOW INDEXES and iterates
`dropIndexStep` over the records, (3) runs SHOW CONSTRAINTS and iterates
`dropConstraintStep`.  Any exception other than the per-drop failures
(which the inner try blocks downgrade to warnings) reaches the outer
except handler, which logs an error and re-raises it unchanged. -/
def clear_database (store : StoreBehavior) : ClearOutcome :=
  let startLog := [LogEvent.info "Starting database cleanup..."]
  match store.deleteError with
  | some e =>
    { trace := [CypherOp.detachDeleteAll]
      log := startLog ++ [LogEvent.error ("Error during database cleanup: " ++ e.message)]
      result := Except.error e }
  | none =>
    let afterDelete := startLog ++ [LogEvent.info "Deleted all nodes and relationships."]
    match store.showIndexesResult with
    | Except.error e =>
      { trace := [CypherOp.detachDeleteAll, CypherOp.showIndexes]
        log := afterDelete ++ [LogEvent.error ("Error during database cleanup: " ++ e.message)]
        result := Except.error e }
    | Except.ok idxs =>
      let idxTrace := (idxs.map fun r => (dropIndexStep store r).1).flatten
      let idxLog := (idxs.map fun r => (dropIndexStep store r).2).flatten
      match store.showConstraintsResult with
      | Except.error e =>
        { trace := [CypherOp.detachDeleteAll, CypherOp.showIndexes] ++ idxTrace
                     ++ [CypherOp.showConstraints]
          log := afterDelete ++ idxLog
                   ++ [LogEvent.error ("Error during database cleanup: " ++ e.message)]
          result := Except.error e }
      | Except.ok cs =>
        let csTrace := (cs.map fun r => (dropConstraintStep store r).1).flatten
        let csLog := (cs.map fun r => (dropConstraintStep store r).2).flatten
        { trace := [CypherOp.detachDeleteAll, CypherOp.showIndexes] ++ idxTrace
                     ++ [CypherOp.showConstraints] ++ csTrace
          log := afterDelete ++ idxLog ++ csLog
          result := Except.ok () }

/-- The drop statement, if any, that the per-index loop issues for one
SHOW INDEXES record. -/
def eligibleIndexDrop (r : SchemaRecord) : Option CypherOp :=
  match truthyName r.name with
  | none => none
  | some name =>
    if droppableIndexType r.type then some (CypherOp.dropIndex name) else none

/-- The drop statement, if any, that the per-constraint loop issues for one
SHOW CONSTRAINTS record. -/
def eligibleConstraintDrop (r : SchemaRecord) : Option CypherOp :=
  match truthyName r.name with
  | none => none
  | some name => some (CypherOp.dropConstraint name)

theorem dropIndexStep_fst (store : StoreBehavior) (r : SchemaRecord) :
    (dropIndexStep store r).1 = (eligibleIndexDrop r).toList := by
  cases htn : truthyName r.name with
  | none => simp [dropIndexStep, eligibleIndexDrop, htn]
  | some name =>
    by_cases h : droppableIndexType r.type = true
    · cases hd : store.dropIndexError name <;>
        simp [dropIndexStep, eligibleIndexDrop, htn, h, hd]
    · simp only [Bool.not_eq_true] at h
      simp [dropIndexStep, eligibleIndexDrop, htn, h]

theorem dropConstraintStep_fst (store : StoreBehavior) (r : SchemaRecord) :
    (dropConstraintStep store r).1 = (eligibleConstraintDrop r).toList := by
  cases htn : truthyName r.name with
  | none => simp [dropConstraintStep, eligibleConstraintDrop, htn]
  | some name =>
    cases hd : store.dropConstraintError name <;>
      simp [dropConstraintStep, eligibleConstraintDrop, htn, hd]

theorem flatten_map_dropIndexStep (store : StoreBehavior) (idxs : List SchemaRecord) :
    (idxs.map fun r => (dropIndexStep store r).1).flatten
      = idxs.filterMap eligibleIndexDrop := by
  induction idxs with
  | nil => rfl
  | cons r rest ih =>
    simp only [dropIndexStep_fst] at ih ⊢
    simp only [List.map_cons, List.flatten_cons, List.filterMap_cons]
    cases eligibleIndexDrop r <;> simp [ih]

theorem flatten_map_dropConstraintStep (store : StoreBehavior) (cs : List SchemaRecord) :
    (cs.map fun r => (dropConstraintStep store r).1).flatten
      = cs.filterMap eligibleConstraintDrop := by
  induction cs with
  | nil => rfl
  | cons r rest ih =>
    simp only [dropConstraintStep_fst] at ih ⊢
    simp only [List.map_cons, List.flatten_cons, List.filterMap_cons]
    cases eligibleConstraintDrop r <;> simp [ih]

/-- Recognizer of the bounded per-batch deletion statements of the claimed
four-phase state machine. -/
def isBatchDeleteOp : CypherOp → Bool
  | CypherOp.deleteRelationshipsBatch _ => true
  | CypherOp.deleteNodesBatch _ => true
  | _ => false

/-- Recognizer of DROP INDEX statements. -/
def isDropIndexOp : CypherOp → Bool
  | CypherOp.dropIndex _ => true
  | _ => false

/-- Recognizer of DROP CONSTRAINT statements. -/
def isDropConstraintOp : CypherOp → Bool
  | CypherOp.dropConstraint _ => true
  | _ => false

theorem truthyName_eq_some {o : Option String} {n : String}
    (h : truthyName o = some n) : o = some n ∧ n ≠ "" := by
  cases o with
  | none => cases h
  | some s =>
    by_cases hs : s = ""
    · simp [truthyName, hs] at h
    · simp only [truthyName, if_neg hs, Option.some.injEq] at h
      subst h
      exact ⟨rfl, hs⟩

theorem eligibleIndexDrop_eq_some {r : SchemaRecord} {op : CypherOp}
    (h : eligibleIndexDrop r = some op) :
    ∃ n, op = CypherOp.dropIndex n ∧ truthyName r.name = some n
      ∧ droppableIndexType r.type = true := by
  cases htn : truthyName r.name with
  | none => simp [eligibleIndexDrop, htn] at h
  | some name =>
    by_cases hd : droppableIndexType r.type = true
    · simp only [eligibleIndexDrop, htn, if_pos hd, Option.some.injEq] at h
      exact ⟨name, h.symm, rfl, hd⟩
    · simp [eligibleIndexDrop, htn, hd] at h

theorem eligibleConstraintDrop_eq_some {r : SchemaRecord} {op : CypherOp}
    (h : eligibleConstraintDrop r = some op) :
    ∃ n, op = CypherOp.dropConstraint n ∧ truthyName r.name = some n := by
  cases htn : truthyName r.name with
  | none => simp [eligibleConstraintDrop, htn] at h
  | some name =>
    simp only [eligibleConstraintDrop, htn, Option.some.injEq] at h
    exact ⟨name, h.symm, rfl⟩

theorem clear_database_deleteError_eq (store : StoreBehavior) (e : StoreError)
    (h : store.deleteError = some e) :
    clear_database store =
      { trace := [CypherOp.detachDeleteAll]
        log := [LogEvent.info "Starting database cleanup...",
                LogEvent.error ("Error during database cleanup: " ++ e.message)]
        result := Except.error e } := by
  simp [clear_database, h]

theorem clear_database_showIndexesError_result (store : StoreBehavior) (e : StoreError)
    (h1 : store.deleteError = none) (h2 : store.showIndexesResult = Except.error e) :
    (clear_database store).result = Except.error e := by
  simp [clear_database, h1, h2]

theorem clear_database_showConstraintsError_result (store : StoreBehavior) (e : StoreError)
    (idxs : List SchemaRecord)
    (h1 : store.deleteError = none) (h2 : store.showIndexesResult = Except.ok idxs)
    (h3 : store.showConstraintsResult = Except.error e) :
    (clear_database store).result = Except.error e := by
  simp [clear_database, h1, h2, h3]

theorem clear_database_trace_ok (store : StoreBehavior) (idxs cs : List SchemaRecord)
    (h1 : store.deleteError = none)
    (h2 : store.showIndexesResult = Except.ok idxs)
    (h3 : store.showConstraintsResult = Except.ok cs) :
    (clear_database store).trace
      = [CypherOp.detachDeleteAll, CypherOp.showIndexes]
          ++ idxs.filterMap eligibleIndexDrop
          ++ [CypherOp.showConstraints]
          ++ cs.filterMap eligibleConstraintDrop := by
  simp [clear_database, h1, h2, h3, flatten_map_dropIndexStep,
    flatten_map_dropConstraintStep]

theorem clear_database_result_ok (store : StoreBehavior) (idxs cs : List SchemaRecord)
    (h1 : store.deleteError = none)
    (h2 : store.showIndexesResult = Except.ok idxs)
    (h3 : store.showConstraintsResult = Except.ok cs) :
    (clear_database store).result = Except.ok () := by
  simp [clear_database, h1, h2, h3]

theorem clear_database_log_ok (store : StoreBehavior) (idxs cs : List SchemaRecord)
    (h1 : store.deleteError = none)
    (h2 : store.showIndexesResult = Except.ok idxs)
    (h3 : store.showConstraintsResult = Except.ok cs) :
    (clear_database store).log
      = [LogEvent.info "Starting database cleanup...",
         LogEvent.info "Deleted all nodes and relationships."]
          ++ (idxs.map fun r => (dropIndexStep store r).2).flatten
          ++ (cs.map fun r => (dropConstraintStep store r).2).flatten := by
  simp [clear_database, h1, h2, h3]

theorem countP_eligibleIndexDrop_zero (idxs : List SchemaRecord) (p : CypherOp → Bool)
    (hp : ∀ n, p (CypherOp.dropIndex n) = false) :
    ((idxs.filterMap eligibleIndexDrop).countP p) = 0 := by
  rw [List.countP_eq_zero]
  intro op hop
  obtain ⟨r, _hr, he⟩ := List.mem_filterMap.mp hop
  obtain ⟨n, rfl, _, _⟩ := eligibleIndexDrop_eq_some he
  simp [hp n]

theorem countP_eligibleConstraintDrop_zero (cs : List SchemaRecord) (p : CypherOp → Bool)
    (hp : ∀ n, p (CypherOp.dropConstraint n) = false) :
    ((cs.filterMap eligibleConstraintDrop).countP p) = 0 := by
  rw [List.countP_eq_zero]
  intro op hop
  obtain ⟨r, _hr, he⟩ := List.mem_filterMap.mp hop
  obtain ⟨n, rfl, _⟩ := eligibleConstraintDrop_eq_some he
  simp [hp n]

theorem not_dropIndex_mem_constraintDrops {cs : List SchemaRecord} {n : String} :
    CypherOp.dropIndex n ∉ cs.filterMap eligibleConstraintDrop := by
  intro h
  obtain ⟨r, _, he⟩ := List.mem_filterMap.mp h
  obtain ⟨m, hop, _⟩ := eligibleConstraintDrop_eq_some he
  exact CypherOp.noConfusion hop

theorem not_dropConstraint_mem_indexDrops {idxs : List SchemaRecord} {n : String} :
    CypherOp.dropConstraint n ∉ idxs.filterMap eligibleIndexDrop := by
  intro h
  obtain ⟨r, _, he⟩ := List.mem_filterMap.mp h
  obtain ⟨m, hop, _, _⟩ := eligibleIndexDrop_eq_some he
  exact CypherOp.noConfusion hop

theorem mem_indexDrops_inv {idxs : List SchemaRecord} {n : String}
    (h : CypherOp.dropIndex n ∈ idxs.filterMap eligibleIndexDrop) :
    n ≠ "" ∧ ∃ r, r ∈ idxs ∧ r.name = some n := by
  obtain ⟨r, hr, he⟩ := List.mem_filterMap.mp h
  obtain ⟨m, hop, htn, _⟩ := eligibleIndexDrop_eq_some he
  injection hop with hnm
  subst hnm
  obtain ⟨hname, hne⟩ := truthyName_eq_some htn
  exact ⟨hne, r, hr, hname⟩

theorem mem_constraintDrops_inv {cs : List SchemaRecord} {n : String}
    (h : CypherOp.dropConstraint n ∈ cs.filterMap eligibleConstraintDrop) :
    n ≠ "" ∧ ∃ r, r ∈ cs ∧ r.name = some n := by
  obtain ⟨r, hr, he⟩ := List.mem_filterMap.mp h
  obtain ⟨m, hop, htn⟩ := eligibleConstraintDrop_eq_some he
  injection hop with hnm
  subst hnm
  obtain ⟨hname, hne⟩ := truthyName_eq_some htn
  exact ⟨hne, r, hr, hname⟩

/-- C1 (code evidence): for every store behaviour, the embedded
`clear_database` issues the single combined unbatched statement
"MATCH (n) DETACH DELETE n;" as its very first operation, issues it
exactly once, and never issues a bounded relationship-batch or
node-batch deletion statement; deletion of relationships and nodes is
one combined step, not the claimed two converging per-phase loops. -/
theorem clear_database_issues_one_unbatched_delete (store : StoreBehavior) :
    (clear_database store).trace.head? = some CypherOp.detachDeleteAll
    ∧ ((clear_database store).trace.countP fun op =>
        decide (op = CypherOp.detachDeleteAll)) = 1
    ∧ ((clear_database store).trace.countP isBatchDeleteOp) = 0 := by
  have hz1 : ∀ idxs : List SchemaRecord, ((idxs.filterMap eligibleIndexDrop).countP
      fun op => decide (op = CypherOp.detachDeleteAll)) = 0 :=
    fun idxs => countP_eligibleIndexDrop_zero idxs
      (fun op => decide (op = CypherOp.detachDeleteAll)) (fun n => by simp)
  have hz2 : ∀ idxs : List SchemaRecord,
      ((idxs.filterMap eligibleIndexDrop).countP isBatchDeleteOp) = 0 :=
    fun idxs => countP_eligibleIndexDrop_zero idxs isBatchDeleteOp (fun n => rfl)
  have hz3 : ∀ cs : List SchemaRecord, ((cs.filterMap eligibleConstraintDrop).countP
      fun op => decide (op = CypherOp.detachDeleteAll)) = 0 :=
    fun cs => countP_eligibleConstraintDrop_zero cs
      (fun op => decide (op = CypherOp.detachDeleteAll)) (fun n => by simp)
  have hz4 : ∀ cs : List SchemaRecord,
      ((cs.filterMap eligibleConstraintDrop).countP isBatchDeleteOp) = 0 :=
    fun cs => countP_eligibleConstraintDrop_zero cs isBatchDeleteOp (fun n => rfl)
  cases hd : store.deleteError with
  | some e =>
    rw [clear_database_deleteError_eq store e hd]
    exact ⟨rfl, rfl, rfl⟩
  | none =>
    cases hi : store.showIndexesResult with
    | error e =>
      have ht : (clear_database store).trace
          = [CypherOp.detachDeleteAll, CypherOp.showIndexes] := by
        simp [clear_database, hd, hi]
      rw [ht]
      exact ⟨rfl, rfl, rfl⟩
    | ok idxs =>
      cases hc : store.showConstraintsResult with
      | error e =>
        have ht : (clear_database store).trace
            = [CypherOp.detachDeleteAll, CypherOp.showIndexes]
                ++ idxs.filterMap eligibleIndexDrop ++ [CypherOp.showConstraints] := by
          simp [clear_database, hd, hi, hc, flatten_map_dropIndexStep]
        rw [ht]
        refine ⟨by simp, ?_, ?_⟩
        · simp [List.countP_append, List.countP_cons, hz1 idxs]
        · simp [List.countP_append, List.countP_cons, hz2 idxs, isBatchDeleteOp]
      | ok cs =>
        rw [clear_database_trace_ok store idxs cs hd hi hc]
        refine ⟨by simp, ?_, ?_⟩
        · simp [List.countP_append, List.countP_cons, hz1 idxs, hz3 cs]
        · simp [List.countP_append, List.countP_cons, hz2 idxs, hz4 cs, isBatchDeleteOp]

/-- C3: propagation policy of `clear_database`.  A failure of the combined
deletion statement propagates unchanged and aborts the call before any
schema work; a failure of SHOW INDEXES or SHOW CONSTRAINTS propagates
unchanged; when those top-level statements succeed the call returns
normally no matter how many individual drop statements fail, and each
failing individual drop is recorded as a warning in the log. -/
theorem clear_database_propagation (store : StoreBehavior) :
    (∀ e, store.deleteError = some e →
        (clear_database store).result = Except.error e
          ∧ (clear_database store).trace = [CypherOp.detachDeleteAll])
    ∧ (∀ e, store.deleteError = none → store.showIndexesResult = Except.error e →
        (clear_database store).result = Except.error e)
    ∧ (∀ e idxs, store.deleteError = none →
        store.showIndexesResult = Except.ok idxs →
        store.showConstraintsResult = Except.error e →
        (clear_database store).result = Except.error e)
    ∧ (∀ idxs cs, store.deleteError = none →
        store.showIndexesResult = Except.ok idxs →
        store.showConstraintsResult = Except.ok cs →
        (clear_database store).result = Except.ok ()
          ∧ (∀ r name e, r ∈ idxs → truthyName r.name = some name →
               droppableIndexType r.type = true →
               store.dropIndexError name = some e →
               LogEvent.warning ("Failed to drop index " ++ name ++ ": " ++ e.message)
                 ∈ (clear_database store).log)
          ∧ (∀ r name e, r ∈ cs → truthyName r.name = some name →
               store.dropConstraintError name = some e →
               LogEvent.warning ("Failed to drop constraint " ++ name ++ ": " ++ e.message)
                 ∈ (clear_database store).log)) := by
  refine ⟨?_, ?_, ?_, ?_⟩
  · intro e he
    rw [clear_database_deleteError_eq store e he]
    exact ⟨rfl, rfl⟩
  · intro e h1 h2
    exact clear_database_showIndexesError_result store e h1 h2
  · intro e idxs h1 h2 h3
    exact clear_database_showConstraintsError_result store e idxs h1 h2 h3
  · intro idxs cs h1 h2 h3
    refine ⟨clear_database_result_ok store idxs cs h1 h2 h3, ?_, ?_⟩
    · intro r name e hr htn hdt hde
      rw [clear_database_log_ok store idxs cs h1 h2 h3]
      have hstep : (dropIndexStep store r).2
          = [LogEvent.warning ("Failed to drop index " ++ name ++ ": " ++ e.message)] := by
        simp [dropIndexStep, htn, hdt, hde]
      refine List.mem_append.mpr (Or.inl (List.mem_append.mpr (Or.inr ?_)))
      refine List.mem_flatten.mpr ⟨(dropIndexStep store r).2, ?_, ?_⟩
      · exact List.mem_map_of_mem _ hr
      · rw [hstep]; exact List.mem_singleton.mpr rfl
    · intro r name e hr htn hde
      rw [clear_database_log_ok store idxs cs h1 h2 h3]
      have hstep : (dropConstraintStep store r).2
          = [LogEvent.warning ("Failed to drop constraint " ++ name ++ ": " ++ e.message)] := by
        simp [dropConstraintStep, htn, hde]
      refine List.mem_append.mpr (Or.inr ?_)
      refine List.mem_flatten.mpr ⟨(dropConstraintStep store r).2, ?_, ?_⟩
      · exact List.mem_map_of_mem _ hr
      · rw [hstep]; exact List.mem_singleton.mpr rfl

/-- Store double on which the combined deletion statement itself fails. -/
def failingDeleteStore : StoreBehavior :=
  { deleteError := some ⟨"ServiceUnavailable", "Persistent failure"⟩
    showIndexesResult := Except.ok []
    dropIndexError := fun _ => none
    showConstraintsResult := Except.ok []
    dropConstraintError := fun _ => none }

/-- Witness for the C3 propagation theorem: on `failingDeleteStore` the
call re-raises the deletion error and never reaches the schema phases. -/
theorem clear_database_propagation_witness :
    (clear_database failingDeleteStore).result
        = Except.error ⟨"ServiceUnavailable", "Persistent failure"⟩
      ∧ (clear_database failingDeleteStore).trace = [CypherOp.detachDeleteAll] :=
  (clear_database_propagation failingDeleteStore).1
    ⟨"ServiceUnavailable", "Persistent failure"⟩ rfl

/-- C4 (amended): the DROP INDEX statements `clear_database` issues are
exactly those for enumerated indexes with a truthy (non-empty) name whose
lower-cased type is range, point, text or btree — every other enumerated
index is left untouched — and the DROP CONSTRAINT statements are exactly
those for enumerated constraints with a truthy name, with no type filter
at all. -/
theorem clear_database_drop_filter_characterization (store : StoreBehavior)
    (idxs cs : List SchemaRecord)
    (h1 : store.deleteError = none)
    (h2 : store.showIndexesResult = Except.ok idxs)
    (h3 : store.showConstraintsResult = Except.ok cs) :
    (clear_database store).trace.filter isDropIndexOp
        = idxs.filterMap eligibleIndexDrop
    ∧ (clear_database store).trace.filter isDropConstraintOp
        = cs.filterMap eligibleConstraintDrop := by
  rw [clear_database_trace_ok store idxs cs h1 h2 h3]
  have hidxAll : ∀ op ∈ idxs.filterMap eligibleIndexDrop, isDropIndexOp op = true := by
    intro op hop
    obtain ⟨r, _, he⟩ := List.mem_filterMap.mp hop
    obtain ⟨n, rfl, _, _⟩ := eligibleIndexDrop_eq_some he
    rfl
  have hidxNone : ∀ op ∈ idxs.filterMap eligibleIndexDrop,
      ¬(isDropConstraintOp op = true) := by
    intro op hop
    obtain ⟨r, _, he⟩ := List.mem_filterMap.mp hop
    obtain ⟨n, rfl, _, _⟩ := eligibleIndexDrop_eq_some he
    simp [isDropConstraintOp]
  have hconAll : ∀ op ∈ cs.filterMap eligibleConstraintDrop,
      isDropConstraintOp op = true := by
    intro op hop
    obtain ⟨r, _, he⟩ := List.mem_filterMap.mp hop
    obtain ⟨n, rfl, _⟩ := eligibleConstraintDrop_eq_some he
    rfl
  have hconNone : ∀ op ∈ cs.filterMap eligibleConstraintDrop,
      ¬(isDropIndexOp op = true) := by
    intro op hop
    obtain ⟨r, _, he⟩ := List.mem_filterMap.mp hop
    obtain ⟨n, rfl, _⟩ := eligibleConstraintDrop_eq_some he
    simp [isDropIndexOp]
  constructor
  · simp [List.filter_append, isDropIndexOp,
      List.filter_eq_self.mpr hidxAll, List.filter_eq_nil_iff.mpr hconNone]
  · simp [List.filter_append, isDropConstraintOp,
      List.filter_eq_self.mpr hconAll, List.filter_eq_nil_iff.mpr hidxNone]

/-- Store double for the mixed-type listing scenario: two enumerated
indexes (one RANGE, one VECTOR) and one enumerated constraint whose
record carries no name; no statement fails. -/
def mixedStore : StoreBehavior :=
  { deleteError := none
    showIndexesResult := Except.ok
      [⟨some "artist_idx", some "RANGE"⟩, ⟨some "vec_idx", some "VECTOR"⟩]
    dropIndexError := fun _ => none
    showConstraintsResult := Except.ok [⟨none, some "UNIQUENESS"⟩]
    dropConstraintError := fun _ => none }

/-- C4 counterexample: `mixedStore` enumerates exactly one constraint,
yet `clear_database` issues no DROP CONSTRAINT statement at all (the
record carries no name), so "every enumerated constraint is dropped" is
false as stated; the trace also shows the VECTOR-type index untouched. -/
theorem clear_database_unnamed_constraint_not_dropped :
    mixedStore.showConstraintsResult
        = Except.ok [⟨none, some "UNIQUENESS"⟩]
    ∧ (clear_database mixedStore).trace
        = [CypherOp.detachDeleteAll, CypherOp.showIndexes,
           CypherOp.dropIndex "artist_idx", CypherOp.showConstraints] := by
  exact ⟨rfl, rfl⟩

/-- Witness for the amended C4 theorem at the mixed-type store. -/
theorem clear_database_drop_filter_characterization_witness :
    (clear_database mixedStore).trace.filter isDropIndexOp
        = ([⟨some "artist_idx", some "RANGE"⟩,
            ⟨some "vec_idx", some "VECTOR"⟩] : List SchemaRecord).filterMap
            eligibleIndexDrop
    ∧ (clear_database mixedStore).trace.filter isDropConstraintOp
        = ([⟨none, some "UNIQUENESS"⟩] : List SchemaRecord).filterMap
            eligibleConstraintDrop :=
  clear_database_drop_filter_characterization mixedStore _ _ rfl rfl rfl

/-- C10: every DROP statement `clear_database` issues is built from a
non-empty name that some enumerated record declares; an entry whose name
field is absent or empty never yields a drop statement. -/
theorem clear_database_drop_names_nonempty (store : StoreBehavior) (n : String) :
    (CypherOp.dropIndex n ∈ (clear_database store).trace →
        n ≠ "" ∧ ∃ idxs, store.showIndexesResult = Except.ok idxs
          ∧ ∃ r, r ∈ idxs ∧ r.name = some n)
    ∧ (CypherOp.dropConstraint n ∈ (clear_database store).trace →
        n ≠ "" ∧ ∃ cs, store.showConstraintsResult = Except.ok cs
          ∧ ∃ r, r ∈ cs ∧ r.name = some n) := by
  cases hd : store.deleteError with
  | some e =>
    rw [clear_database_deleteError_eq store e hd]
    constructor <;> intro hmem <;> simp at hmem
  | none =>
    cases hi : store.showIndexesResult with
    | error e =>
      have ht : (clear_database store).trace
          = [CypherOp.detachDeleteAll, CypherOp.showIndexes] := by
        simp [clear_database, hd, hi]
      rw [ht]
      constructor <;> intro hmem <;> simp at hmem
    | ok idxs =>
      cases hc : store.showConstraintsResult with
      | error e =>
        have ht : (clear_database store).trace
            = [CypherOp.detachDeleteAll, CypherOp.showIndexes]
                ++ idxs.filterMap eligibleIndexDrop ++ [CypherOp.showConstraints] := by
          simp [clear_database, hd, hi, hc, flatten_map_dropIndexStep]
        rw [ht]
        constructor
        · intro hmem
          rcases List.mem_append.mp hmem with h2 | h2
          · rcases List.mem_append.mp h2 with h3 | h3
            · simp at h3
            · obtain ⟨hne, r, hr, hname⟩ := mem_indexDrops_inv h3
              exact ⟨hne, idxs, rfl, r, hr, hname⟩
          · simp at h2
        · intro hmem
          rcases List.mem_append.mp hmem with h2 | h2
          · rcases List.mem_append.mp h2 with h3 | h3
            · simp at h3
            · exact absurd h3 not_dropConstraint_mem_indexDrops
          · simp at h2
      | ok cs =>
        rw [clear_database_trace_ok store idxs cs hd hi hc]
        constructor
        · intro hmem
          rcases List.mem_append.mp hmem with h2 | h2
          · rcases List.mem_append.mp h2 with h3 | h3
            · rcases List.mem_append.mp h3 with h4 | h4
              · simp at h4
              · obtain ⟨hne, r, hr, hname⟩ := mem_indexDrops_inv h4
                exact ⟨hne, idxs, rfl, r, hr, hname⟩
            · simp at h3
          · exact absurd h2 not_dropIndex_mem_constraintDrops
        · intro hmem
          rcases List.mem_append.mp hmem with h2 | h2
          · rcases List.mem_append.mp h2 with h3 | h3
            · rcases List.mem_append.mp h3 with h4 | h4
              · simp at h4
              · exact absurd h4 not_dropConstraint_mem_indexDrops
            · simp at h3
          · obtain ⟨hne, r, hr, hname⟩ := mem_constraintDrops_inv h2
            exact ⟨hne, cs, rfl, r, hr, hname⟩

/-- Witness for C10 at the mixed-type store: the one issued DROP INDEX
statement names the non-empty "artist_idx" declared by an enumerated
record. -/
theorem clear_database_drop_names_nonempty_witness :
    "artist_idx" ≠ ""
      ∧ ∃ idxs, mixedStore.showIndexesResult = Except.ok idxs
          ∧ ∃ r, r ∈ idxs ∧ r.name = some "artist_idx" :=
  (clear_database_drop_names_nonempty mixedStore "artist_idx").1 (by
    rw [show (clear_database mixedStore).trace
        = [CypherOp.detachDeleteAll, CypherOp.showIndexes,
           CypherOp.dropIndex "artist_idx", CypherOp.showConstraints] from rfl]
    simp)

/-
The resilient execution primitive.  The repository's tests import
`_execute_with_retry` from the helper module, but no implementation is
present under src (the helper file there predates it); the definitions
below are modelled from the spec.
-/

/-- Modelled from the spec: `executeWithRetry` classifies an error as
transient when it is a dropped connection, an expired session or a
temporarily unavailable service — the driver exception types
ServiceUnavailable, SessionExpired and TransientError.  The function
itself is absent from src; only its tests and callers are present. -/
def isTransientError (e : StoreError) : Bool :=
  e.errType = "ServiceUnavailable" || e.errType = "SessionExpired"
    || e.errType = "TransientError"

/-- The observable outcome of one `executeWithRetry` call: how many
attempts ran, the sleeps performed between attempts, and the final
result. -/
structure RetryOutcome (α : Type) where
  attempts : Nat
  sleeps : List ℚ
  result : Except StoreError α
  deriving Repr

/-- Modelled from the spec: the retry loop of `executeWithRetry`, absent
from src.  `run k` is the outcome of attempt number `k` (0-based);
`remaining` counts the retries still allowed.  A successful attempt
returns; a transient error with retries remaining sleeps
`baseDelay * 2 ^ attempt` and retries; a transient error with no retries
left, or any non-transient error, is re-raised unchanged. -/
def retryFrom {α : Type} (run : Nat → Except StoreError α) (baseDelay : ℚ)
    (attempt : Nat) : Nat → RetryOutcome α
  | 0 =>
    match run attempt with
    | Except.ok v => ⟨1, [], Except.ok v⟩
    | Except.error e => ⟨1, [], Except.error e⟩
  | remaining + 1 =>
    match run attempt with
    | Except.ok v => ⟨1, [], Except.ok v⟩
    | Except.error e =>
      if isTransientError e then
        let rest := retryFrom run baseDelay (attempt + 1) remaining
        ⟨rest.attempts + 1, baseDelay * 2 ^ attempt :: rest.sleeps, rest.result⟩
      else ⟨1, [], Except.error e⟩

/-- Modelled from the spec: `executeWithRetry(statement, params,
maxRetries, baseDelay)` starts at attempt 0 with `maxRetries` retries
allowed. -/
def execute_with_retry {α : Type} (run : Nat → Except StoreError α)
    (maxRetries : Nat) (baseDelay : ℚ) : RetryOutcome α :=
  retryFrom run baseDelay 0 maxRetries

theorem range_pow_shift (baseDelay : ℚ) (k attempt : Nat) :
    ((List.range (k + 1)).map fun i => baseDelay * 2 ^ (attempt + i))
      = baseDelay * 2 ^ attempt
          :: ((List.range k).map fun i => baseDelay * 2 ^ (attempt + 1 + i)) := by
  rw [List.range_succ_eq_map, List.map_cons, List.map_map]
  refine congrArg₂ List.cons (by rw [Nat.add_zero]) (List.map_congr_left ?_)
  intro i _
  have hadd : attempt + (i + 1) = attempt + 1 + i := by omega
  simp [Function.comp_def, hadd]

theorem retryFrom_allTransient {α : Type} (run : Nat → Except StoreError α)
    (baseDelay : ℚ) (err : Nat → StoreError)
    (hrun : ∀ k, run k = Except.error (err k))
    (htr : ∀ k, isTransientError (err k) = true) :
    ∀ remaining attempt, retryFrom run baseDelay attempt remaining
      = ⟨remaining + 1,
         (List.range remaining).map fun i => baseDelay * 2 ^ (attempt + i),
         Except.error (err (attempt + remaining))⟩ := by
  intro remaining
  induction remaining with
  | zero =>
    intro attempt
    simp [retryFrom, hrun attempt]
  | succ r ih =>
    intro attempt
    have hidx : attempt + 1 + r = attempt + (r + 1) := by omega
    simp only [retryFrom, hrun attempt, htr attempt, if_true, ih (attempt + 1)]
    rw [range_pow_shift baseDelay r attempt, hidx]

theorem retryFrom_stops_nonTransient {α : Type} (run : Nat → Except StoreError α)
    (baseDelay : ℚ) (e : StoreError) (he : isTransientError e = false) :
    ∀ k remaining attempt, k ≤ remaining →
      (∀ j, j < k → ∃ e', run (attempt + j) = Except.error e'
        ∧ isTransientError e' = true) →
      run (attempt + k) = Except.error e →
      retryFrom run baseDelay attempt remaining
        = ⟨k + 1, (List.range k).map fun i => baseDelay * 2 ^ (attempt + i),
           Except.error e⟩ := by
  intro k
  induction k with
  | zero =>
    intro remaining attempt _ _ hrk
    rw [Nat.add_zero] at hrk
    cases remaining with
    | zero => simp [retryFrom, hrk]
    | succ r => simp [retryFrom, hrk, he]
  | succ k ih =>
    intro remaining attempt hle hpre hrk
    obtain ⟨e0, hr0, ht0⟩ := hpre 0 (Nat.succ_pos k)
    rw [Nat.add_zero] at hr0
    cases remaining with
    | zero => omega
    | succ r =>
      have hpre' : ∀ j, j < k → ∃ e', run (attempt + 1 + j) = Except.error e'
          ∧ isTransientError e' = true := by
        intro j hj
        have h := hpre (j + 1) (by omega)
        rw [show attempt + (j + 1) = attempt + 1 + j by omega] at h
        exact h
      have hrk' : run (attempt + 1 + k) = Except.error e := by
        rw [show attempt + 1 + k = attempt + (k + 1) by omega]
        exact hrk
      have hrec := ih r (attempt + 1) (by omega) hpre' hrk'
      simp only [retryFrom, hr0, ht0, if_true, hrec]
      rw [range_pow_shift baseDelay k attempt]

theorem retryFrom_succeeds {α : Type} (run : Nat → Except StoreError α)
    (baseDelay : ℚ) (v : α) :
    ∀ k remaining attempt, k ≤ remaining →
      (∀ j, j < k → ∃ e', run (attempt + j) = Except.error e'
        ∧ isTransientError e' = true) →
      run (attempt + k) = Except.ok v →
      retryFrom run baseDelay attempt remaining
        = ⟨k + 1, (List.range k).map fun i => baseDelay * 2 ^ (attempt + i),
           Except.ok v⟩ := by
  intro k
  induction k with
  | zero =>
    intro remaining attempt _ _ hrk
    rw [Nat.add_zero] at hrk
    cases remaining with
    | zero => simp [retryFrom, hrk]
    | succ r => simp [retryFrom, hrk]
  | succ k ih =>
    intro remaining attempt hle hpre hrk
    obtain ⟨e0, hr0, ht0⟩ := hpre 0 (Nat.succ_pos k)
    rw [Nat.add_zero] at hr0
    cases remaining with
    | zero => omega
    | succ r =>
      have hpre' : ∀ j, j < k → ∃ e', run (attempt + 1 + j) = Except.error e'
          ∧ isTransientError e' = true := by
        intro j hj
        have h := hpre (j + 1) (by omega)
        rw [show attempt + (j + 1) = attempt + 1 + j by omega] at h
        exact h
      have hrk' : run (attempt + 1 + k) = Except.ok v := by
        rw [show attempt + 1 + k = attempt + (k + 1) by omega]
        exact hrk
      have hrec := ih r (attempt + 1) (by omega) hpre' hrk'
      simp only [retryFrom, hr0, ht0, if_true, hrec]
      rw [range_pow_shift baseDelay k attempt]

theorem zero_add_pow_map (baseDelay : ℚ) (k : Nat) :
    ((List.range k).map fun i => baseDelay * 2 ^ (0 + i))
      = (List.range k).map fun i => baseDelay * 2 ^ i := by
  refine List.map_congr_left ?_
  intro i _
  rw [Nat.zero_add]

/-- C2: retry semantics of executeWithRetry.  If every attempt fails with
a transient error, the call makes exactly maxRetries + 1 attempts,
sleeping baseDelay * 2 ^ attempt between consecutive attempts, and
re-raises the last transient error unchanged; if the first k attempts
fail transiently and attempt k fails with a non-transient error
(k ≤ maxRetries), the call stops at attempt k + 1 and re-raises that
error immediately; a success at attempt k ends the call there. -/
theorem execute_with_retry_spec {α : Type} (run : Nat → Except StoreError α)
    (maxRetries : Nat) (baseDelay : ℚ) :
    (∀ err : Nat → StoreError,
      (∀ k, run k = Except.error (err k)) →
      (∀ k, isTransientError (err k) = true) →
      execute_with_retry run maxRetries baseDelay
        = ⟨maxRetries + 1,
           (List.range maxRetries).map fun i => baseDelay * 2 ^ i,
           Except.error (err maxRetries)⟩)
    ∧ (∀ k e, k ≤ maxRetries → isTransientError e = false →
        (∀ j, j < k → ∃ e', run j = Except.error e'
          ∧ isTransientError e' = true) →
        run k = Except.error e →
        execute_with_retry run maxRetries baseDelay
          = ⟨k + 1, (List.range k).map fun i => baseDelay * 2 ^ i,
             Except.error e⟩)
    ∧ (∀ k v, k ≤ maxRetries →
        (∀ j, j < k → ∃ e', run j = Except.error e'
          ∧ isTransientError e' = true) →
        run k = Except.ok v →
        execute_with_retry run maxRetries baseDelay
          = ⟨k + 1, (List.range k).map fun i => baseDelay * 2 ^ i,
             Except.ok v⟩) := by
  refine ⟨?_, ?_, ?_⟩
  · intro err hrun htr
    unfold execute_with_retry
    rw [retryFrom_allTransient run baseDelay err hrun htr maxRetries 0,
      zero_add_pow_map, Nat.zero_add]
  · intro k e hk he hpre hrk
    unfold execute_with_retry
    have hpre0 : ∀ j, j < k → ∃ e', run (0 + j) = Except.error e'
        ∧ isTransientError e' = true := by
      intro j hj
      rw [Nat.zero_add]
      exact hpre j hj
    have hrk0 : run (0 + k) = Except.error e := by rw [Nat.zero_add]; exact hrk
    rw [retryFrom_stops_nonTransient run baseDelay e he k maxRetries 0 hk hpre0 hrk0,
      zero_add_pow_map]
  · intro k v hk hpre hrk
    unfold execute_with_retry
    have hpre0 : ∀ j, j < k → ∃ e', run (0 + j) = Except.error e'
        ∧ isTransientError e' = true := by
      intro j hj
      rw [Nat.zero_add]
      exact hpre j hj
    have hrk0 : run (0 + k) = Except.ok v := by rw [Nat.zero_add]; exact hrk
    rw [retryFrom_succeeds run baseDelay v k maxRetries 0 hk hpre0 hrk0,
      zero_add_pow_map]

/-- Witness for C2: a store double whose every attempt raises
ServiceUnavailable, with maxRetries = 2, makes exactly 3 attempts, sleeps
baseDelay * 2 ^ 0 then baseDelay * 2 ^ 1, and re-raises the original
error type and message. -/
theorem execute_with_retry_spec_witness :
    execute_with_retry
        (fun _ => (Except.error ⟨"ServiceUnavailable", "Service unavailable"⟩
          : Except StoreError Unit))
        2 1
      = ⟨3, [1, 2], Except.error ⟨"ServiceUnavailable", "Service unavailable"⟩⟩ := by
  have h := (execute_with_retry_spec
      (fun _ => (Except.error ⟨"ServiceUnavailable", "Service unavailable"⟩
        : Except StoreError Unit))
      2 1).1
    (fun _ => ⟨"ServiceUnavailable", "Service unavailable"⟩)
    (fun _ => rfl) (fun _ => rfl)
  rw [h]
  norm_num [List.range_succ]

/-
Graph construction and community detection.  The repository's tests and
the detect_communities asset import build_igraph, run_leiden_multilevel
and get_community_stats from the helper module, but no implementation is
present under src; the definitions below are modelled from the spec.
-/

/-- An in-memory graph: an ordered vertex list abstracted to its length
(indices are dense and contiguous in [0, vcount)) and an edge list of
index pairs, undirected for analysis. -/
structure IGraph where
  vcount : Nat
  edges : List (Nat × Nat)
  deriving Repr, DecidableEq

/-- Modelled from the spec: the id → index map of GraphBuilder; each id
maps to the 0-based position of its first appearance in the node list. -/
def idIndexOf (nodeIds : List String) (x : String) : Option Nat :=
  match nodeIds with
  | [] => none
  | n :: rest => if n = x then some 0 else (idIndexOf rest x).map (· + 1)

/-- Modelled from the spec: the edge pairs whose both endpoint ids are
present in the id map, translated to index pairs in input order; a pair
with a missing endpoint is silently dropped, and parallel edges are
kept. -/
def keptEdges (nodeIds : List String) (pairs : List (String × String)) :
    List (Nat × Nat) :=
  pairs.filterMap fun p =>
    match idIndexOf nodeIds p.1, idIndexOf nodeIds p.2 with
    | some s, some t => some (s, t)
    | _, _ => none

/-- Modelled from the spec: build_igraph is absent from src (only its
tests and the detect_communities caller are present).  Duplicate node
ids are a ValidationError; otherwise the graph has one vertex per node in
first-seen order and exactly the edges with both endpoints present. -/
def build_igraph (nodeIds : List String) (pairs : List (String × String)) :
    Except String IGraph :=
  if nodeIds.Nodup then Except.ok ⟨nodeIds.length, keptEdges nodeIds pairs⟩
  else Except.error "ValidationError: duplicate node id"

theorem idIndexOf_lt_length :
    ∀ {nodeIds : List String} {x : String} {k : Nat},
      idIndexOf nodeIds x = some k → k < nodeIds.length := by
  intro nodeIds
  induction nodeIds with
  | nil => intro x k h; cases h
  | cons n rest ih =>
    intro x k h
    unfold idIndexOf at h
    by_cases hn : n = x
    · rw [if_pos hn] at h
      injection h with h
      subst h
      simp
    · rw [if_neg hn] at h
      cases hm : idIndexOf rest x with
      | none => rw [hm] at h; cases h
      | some j =>
        rw [hm] at h
        injection h with h
        have hk : j + 1 = k := h
        have := ih hm
        simp only [List.length_cons]
        omega

theorem keptEdges_length (nodeIds : List String) (pairs : List (String × String)) :
    (keptEdges nodeIds pairs).length
      = (pairs.filter fun p =>
          (idIndexOf nodeIds p.1).isSome && (idIndexOf nodeIds p.2).isSome).length := by
  induction pairs with
  | nil => rfl
  | cons p rest ih =>
    unfold keptEdges at ih ⊢
    simp only [List.filterMap_cons, List.filter_cons]
    cases h1 : idIndexOf nodeIds p.1 <;> cases h2 : idIndexOf nodeIds p.2 <;>
      simp [h1, h2, ih]

theorem keptEdges_bounded {nodeIds : List String} {pairs : List (String × String)}
    {e : Nat × Nat} (h : e ∈ keptEdges nodeIds pairs) :
    e.1 < nodeIds.length ∧ e.2 < nodeIds.length := by
  obtain ⟨p, _, hfp⟩ := List.mem_filterMap.mp h
  cases h1 : idIndexOf nodeIds p.1 with
  | none => simp [h1] at hfp
  | some s =>
    cases h2 : idIndexOf nodeIds p.2 with
    | none => simp [h1, h2] at hfp
    | some t =>
      simp only [h1, h2, Option.some.injEq] at hfp
      rw [← hfp]
      exact ⟨idIndexOf_lt_length h1, idIndexOf_lt_length h2⟩

/-- C7: dangling edges never make build fail — whether build succeeds
depends only on the node list — and on success the edge count equals the
number of input pairs whose both endpoints are present (parallel edges
kept, none deduplicated), with every edge referencing indices below the
vertex count. -/
theorem build_igraph_drops_dangling (nodeIds : List String)
    (pairs : List (String × String)) :
    (build_igraph nodeIds pairs).isOk = (build_igraph nodeIds []).isOk
    ∧ (∀ g, build_igraph nodeIds pairs = Except.ok g →
        g.edges = keptEdges nodeIds pairs
        ∧ g.edges.length = (pairs.filter fun p =>
            (idIndexOf nodeIds p.1).isSome && (idIndexOf nodeIds p.2).isSome).length
        ∧ ∀ e, e ∈ g.edges → e.1 < g.vcount ∧ e.2 < g.vcount) := by
  constructor
  · by_cases hnd : nodeIds.Nodup
    · rw [build_igraph, build_igraph, if_pos hnd, if_pos hnd]
      rfl
    · rw [build_igraph, build_igraph, if_neg hnd, if_neg hnd]
  · intro g hg
    by_cases hnd : nodeIds.Nodup
    · rw [build_igraph, if_pos hnd] at hg
      injection hg with hg
      subst hg
      refine ⟨rfl, keptEdges_length nodeIds pairs, ?_⟩
      intro e he
      exact keptEdges_bounded he
    · rw [build_igraph, if_neg hnd] at hg
      cases hg

/-- Witness for C7: two nodes, one valid edge and two dangling edges —
build succeeds, keeps exactly the one valid edge, and its endpoints are
in range. -/
theorem build_igraph_drops_dangling_witness :
    (build_igraph ["A", "B"] [("A", "B"), ("A", "C"), ("D", "B")]).isOk
        = (build_igraph ["A", "B"] []).isOk
    ∧ (IGraph.mk 2 [(0, 1)]).edges
        = keptEdges ["A", "B"] [("A", "B"), ("A", "C"), ("D", "B")]
    ∧ (IGraph.mk 2 [(0, 1)]).edges.length
        = ([("A", "B"), ("A", "C"), ("D", "B")].filter fun p =>
            (idIndexOf ["A", "B"] p.1).isSome && (idIndexOf ["A", "B"] p.2).isSome).length
    ∧ ∀ e, e ∈ (IGraph.mk 2 [(0, 1)]).edges
        → e.1 < (IGraph.mk 2 [(0, 1)]).vcount ∧ e.2 < (IGraph.mk 2 [(0, 1)]).vcount := by
  have h := build_igraph_drops_dangling ["A", "B"] [("A", "B"), ("A", "C"), ("D", "B")]
  have h2 := h.2 (IGraph.mk 2 [(0, 1)]) (by rfl)
  exact ⟨h.1, h2.1, h2.2.1, h2.2.2⟩

/-- Degree of a vertex: each incident edge endpoint counts once (a
self-loop counts twice), matching the usual modularity degree. -/
def degreeOf (g : IGraph) (v : Nat) : Nat :=
  (g.edges.countP fun e => decide (e.1 = v))
    + (g.edges.countP fun e => decide (e.2 = v))

/-- Neighbours of a vertex along the undirected edge list. -/
def neighborsOf (g : IGraph) (v : Nat) : List Nat :=
  g.edges.filterMap fun e =>
    if e.1 = v then some e.2 else if e.2 = v then some e.1 else none

/-- Number of edges joining vertex v to the (other) members of
community c under a membership assignment. -/
def edgesToComm (g : IGraph) (memb : Nat → Nat) (v c : Nat) : Nat :=
  g.edges.countP fun e =>
    decide ((e.1 = v ∧ memb e.2 = c ∧ e.2 ≠ v)
      ∨ (e.2 = v ∧ memb e.1 = c ∧ e.1 ≠ v))

/-- Total degree of community c, vertex v excluded. -/
def commDegree (g : IGraph) (memb : Nat → Nat) (c v : Nat) : Nat :=
  ((List.range g.vcount).filter fun u => decide (memb u = c ∧ u ≠ v)).foldl
    (fun acc u => acc + degreeOf g u) 0

/-- Resolution-scaled modularity gain of moving vertex v into community
c: edges gained minus γ times the degree product over twice the edge
count. -/
def modularityGain (g : IGraph) (γ : ℚ) (memb : Nat → Nat) (v c : Nat) : ℚ :=
  (edgesToComm g memb v c : ℚ)
    - γ * (degreeOf g v : ℚ) * (commDegree g memb c v : ℚ)
        / (2 * (g.edges.length : ℚ))

/-- Greedy deterministic choice of the best community for vertex v among
its own and its neighbours' communities; strict improvement is required
to move, and exact ties prefer the smaller label. -/
def bestCommunity (g : IGraph) (γ : ℚ) (memb : Nat → Nat) (v : Nat) : Nat :=
  ((memb v) :: ((neighborsOf g v).map memb)).foldl
    (fun best c =>
      if modularityGain g γ memb v c > modularityGain g γ memb v best
          ∨ (modularityGain g γ memb v c = modularityGain g γ memb v best
              ∧ c < best)
      then c else best)
    (memb v)

/-- One local-move sweep over the vertices in the seeded visit order. -/
def localMoveSweep (g : IGraph) (γ : ℚ) (order : List Nat)
    (memb : Nat → Nat) : Nat → Nat :=
  order.foldl
    (fun m v => fun u => if u = v then bestCommunity g γ m v else m u) memb

/-- Local-move iteration until a sweep changes no vertex, bounded by
fuel. -/
def localMoveLoop (g : IGraph) (γ : ℚ) (order : List Nat) :
    Nat → (Nat → Nat) → (Nat → Nat)
  | 0, memb => memb
  | fuel + 1, memb =>
    let memb2 := localMoveSweep g γ order memb
    if (List.range g.vcount).all fun v => decide (memb2 v = memb v) then memb
    else localMoveLoop g γ order fuel memb2

/-- Modelled from the spec: one detection run at a single resolution — a
deterministically seeded, Leiden-style iterative local-move optimization
of the resolution-scaled modularity objective, iterated to convergence
(the aggregation rounds of the library call are modelled by iterating the
local-move phase to a fixpoint).  The membership array has one entry per
vertex of the graph.  The library binding this models
(run_leiden_multilevel's per-resolution call) is absent from src. -/
def leidenOneLevel (g : IGraph) (γ : ℚ) (seed : Nat) : List Nat :=
  let order := (List.range g.vcount).rotate (seed % (g.vcount + 1))
  let memb := localMoveLoop g γ order (g.vcount + 1) (fun v => v)
  (List.range g.vcount).map memb

/-- Modelled from the spec: run_leiden_multilevel(graph, resolutions,
seed) is absent from src (only its tests and the detect_communities
caller are present).  Each resolution is detected fully independently in
input order; a non-positive resolution fails the whole call with
AlgorithmError before any detection work starts. -/
def run_leiden_multilevel (g : IGraph) (resolutions : List ℚ) (seed : Nat) :
    Except String (List (List Nat)) :=
  if resolutions.all fun γ => decide (0 < γ) then
    Except.ok (resolutions.map fun γ => leidenOneLevel g γ seed)
  else Except.error "AlgorithmError: resolution must be positive"

theorem run_leiden_ok (g : IGraph) (resolutions : List ℚ) (seed : Nat)
    (h : ∀ γ ∈ resolutions, 0 < γ) :
    run_leiden_multilevel g resolutions seed
      = Except.ok (resolutions.map fun γ => leidenOneLevel g γ seed) := by
  have hall : (resolutions.all fun γ => decide (0 < γ)) = true :=
    List.all_eq_true.mpr fun γ hγ => decide_eq_true (h γ hγ)
  rw [run_leiden_multilevel, if_pos hall]

/-- C5: determinism — two invocations of the detector on the identical
(graph, resolutions, seed) triple return identical membership arrays. -/
theorem run_leiden_deterministic (g : IGraph) (resolutions : List ℚ)
    (seed : Nat) (h : ∀ γ ∈ resolutions, 0 < γ) :
    ∃ ms, run_leiden_multilevel g resolutions seed = Except.ok ms
      ∧ run_leiden_multilevel g resolutions seed = Except.ok ms :=
  ⟨resolutions.map fun γ => leidenOneLevel g γ seed,
   run_leiden_ok g resolutions seed h, run_leiden_ok g resolutions seed h⟩

/-- Witness for C5 at the test scenario: a 10-cycle, resolution list
[1.0], seed 42; both invocations return the same arrays. -/
theorem run_leiden_deterministic_witness :
    ∃ ms, run_leiden_multilevel
        ⟨10, [(0, 1), (1, 2), (2, 3), (3, 4), (4, 5), (5, 6), (6, 7), (7, 8),
              (8, 9), (9, 0)]⟩ [1] 42 = Except.ok ms
      ∧ run_leiden_multilevel
        ⟨10, [(0, 1), (1, 2), (2, 3), (3, 4), (4, 5), (5, 6), (6, 7), (7, 8),
              (8, 9), (9, 0)]⟩ [1] 42 = Except.ok ms :=
  run_leiden_deterministic
    ⟨10, [(0, 1), (1, 2), (2, 3), (3, 4), (4, 5), (5, 6), (6, 7), (7, 8),
          (8, 9), (9, 0)]⟩ [1] 42
    (by intro γ hγ; simp at hγ; rw [hγ]; norm_num)

/-- C6: the detector returns one membership array per resolution in input
order, each of length vcount; a zero-vertex graph yields an empty array
per resolution. -/
theorem run_leiden_shapes (g : IGraph) (resolutions : List ℚ) (seed : Nat)
    (h : ∀ γ ∈ resolutions, 0 < γ) :
    ∃ ms, run_leiden_multilevel g resolutions seed = Except.ok ms
      ∧ ms.length = resolutions.length
      ∧ (∀ m ∈ ms, m.length = g.vcount)
      ∧ (g.vcount = 0 → ∀ m ∈ ms, m = []) := by
  refine ⟨resolutions.map fun γ => leidenOneLevel g γ seed,
    run_leiden_ok g resolutions seed h, by simp, ?_, ?_⟩
  · intro m hm
    obtain ⟨γ, _, rfl⟩ := List.mem_map.mp hm
    simp [leidenOneLevel]
  · intro h0 m hm
    obtain ⟨γ, _, rfl⟩ := List.mem_map.mp hm
    simp [leidenOneLevel, h0]

/-- Witness for C6: the zero-vertex graph with two resolutions yields two
empty membership arrays. -/
theorem run_leiden_shapes_witness :
    ∃ ms, run_leiden_multilevel ⟨0, []⟩ [1, 2] 7 = Except.ok ms
      ∧ ms.length = ([1, 2] : List ℚ).length
      ∧ (∀ m ∈ ms, m.length = (IGraph.mk 0 []).vcount)
      ∧ ((IGraph.mk 0 []).vcount = 0 → ∀ m ∈ ms, m = []) :=
  run_leiden_shapes ⟨0, []⟩ [1, 2] 7
    (by
      intro γ hγ
      simp at hγ
      rcases hγ with h | h <;> rw [h] <;> norm_num)

/-- Community-size summary of one membership assignment. -/
structure CommunityStats where
  num_communities : Nat
  sizes : List Nat
  largest : Nat
  smallest : Nat
  mean_size : ℚ
  deriving Repr, DecidableEq

/-- Sizes of the communities present in a membership array, sorted in
descending order. -/
def communitySizes (membership : List Nat) : List Nat :=
  (membership.dedup.map fun c => membership.count c).insertionSort (· ≥ ·)

/-- Modelled from the spec: get_community_stats is absent from src (only
its tests and the detect_communities caller are present).  Buckets nodes
by community label, sizes sorted descending; num_communities is the count
of distinct labels; mean_size is computed as totalNodes / numCommunities
only when numCommunities is positive and is 0 otherwise, with no division
performed in the empty case. -/
def get_community_stats (membership : List Nat) : CommunityStats :=
  let sizes := communitySizes membership
  let num := membership.dedup.length
  { num_communities := num
    sizes := sizes
    largest := sizes.headD 0
    smallest := sizes.getLastD 0
    mean_size :=
      if 0 < num then (membership.length : ℚ) / (num : ℚ) else 0 }

/-- C8: mean_size equals totalNodes / numCommunities whenever the number
of distinct labels is positive, is 0 when it is zero (guarded, so no
division is performed then), and the empty membership yields the all-zero
stats record. -/
theorem get_community_stats_mean (membership : List Nat) :
    (0 < (get_community_stats membership).num_communities →
      (get_community_stats membership).mean_size
        = (membership.length : ℚ)
            / ((get_community_stats membership).num_communities : ℚ))
    ∧ ((get_community_stats membership).num_communities = 0 →
      (get_community_stats membership).mean_size = 0)
    ∧ get_community_stats [] = ⟨0, [], 0, 0, 0⟩ := by
  refine ⟨?_, ?_, by rfl⟩
  · intro h
    have h' : 0 < membership.dedup.length := h
    simp [get_community_stats, h']
  · intro h
    have h' : membership.dedup.length = 0 := h
    simp [get_community_stats, h']

/-- Witness for C8 at the test input [0, 0, 0, 1, 1, 2]: three
communities, mean 6 / 3. -/
theorem get_community_stats_mean_witness :
    0 < (get_community_stats [0, 0, 0, 1, 1, 2]).num_communities
    ∧ (get_community_stats [0, 0, 0, 1, 1, 2]).mean_size
        = (([0, 0, 0, 1, 1, 2] : List Nat).length : ℚ)
            / ((get_community_stats [0, 0, 0, 1, 1, 2]).num_communities : ℚ) :=
  ⟨by decide, (get_community_stats_mean [0, 0, 0, 1, 1, 2]).1 (by decide)⟩

/-
The SIMILAR_TO relationship-creation statement of the graph ingestion
asset (src/data_pipeline/defs/assets/ingest_graph_db.py).
-/

/-- An Artist node as created by the node-ingestion stage, restricted to
the properties the SIMILAR_TO statement reads. -/
structure ArtistNode where
  id : String
  name : String
  aliases : Option (List String)
  similar_artists : Option (List String)
  deriving Repr, DecidableEq

/-- The WHERE clause of the SIMILAR_TO statement:
`a.id <> target.id AND NOT target.name IN a.aliases`.  A row is kept only
when this evaluates to true; when `a.aliases` is null the membership test
is null, so the conjunction is not true and the row is filtered out. -/
def similarToWhere (a target : ArtistNode) : Bool :=
  decide (a.id ≠ target.id)
    && (match a.aliases with
        | none => false
        | some al => !(decide (target.name ∈ al)))

/-- Embedding of the SIMILAR_TO relationship-creation statement of
`load_graph_db`: for each artist `a` with non-null similar_artists, each
sim_name in that list, and each artist `target` whose name equals
sim_name, the pair (a, target) is merged when the WHERE clause holds. -/
def similarToPairs (artists : List ArtistNode) : List (ArtistNode × ArtistNode) :=
  (artists.map fun a =>
    match a.similar_artists with
    | none => []
    | some sims =>
      (sims.map fun simName =>
        (artists.filter fun t => t.name == simName).filterMap fun t =>
          if similarToWhere a t then some (a, t) else none).flatten).flatten

/-- C9: every SIMILAR_TO relationship the statement creates links two
distinct artist ids, and the target's name is not an element of the
source's aliases list. -/
theorem similarTo_no_self_no_alias (artists : List ArtistNode)
    (p : ArtistNode × ArtistNode) (hp : p ∈ similarToPairs artists) :
    p.1.id ≠ p.2.id ∧ ∀ al, p.1.aliases = some al → p.2.name ∉ al := by
  obtain ⟨l1, hl1, hmem1⟩ := List.mem_flatten.mp hp
  obtain ⟨a, _, rfl⟩ := List.mem_map.mp hl1
  cases hsim : a.similar_artists with
  | none => rw [hsim] at hmem1; cases hmem1
  | some sims =>
    rw [hsim] at hmem1
    obtain ⟨l2, hl2, hmem2⟩ := List.mem_flatten.mp hmem1
    obtain ⟨simName, _, rfl⟩ := List.mem_map.mp hl2
    obtain ⟨t, _, hif⟩ := List.mem_filterMap.mp hmem2
    by_cases hw : similarToWhere a t = true
    · rw [if_pos hw] at hif
      injection hif with hif
      subst hif
      unfold similarToWhere at hw
      rw [Bool.and_eq_true] at hw
      obtain ⟨hid, halias⟩ := hw
      refine ⟨of_decide_eq_true hid, ?_⟩
      intro al hal
      rw [hal] at halias
      simp only [Bool.not_eq_true'] at halias
      exact of_decide_eq_false halias
    · rw [if_neg hw] at hif
      cases hif

/-- Witness for C9: with artist 1 ("A", aliases ["X"], similar list
["B"]) and artist 2 ("B"), the statement creates the pair (1, 2), whose
ids differ and whose target name "B" is not among artist 1's aliases. -/
theorem similarTo_no_self_no_alias_witness :
    ((⟨"1", "A", some ["X"], some ["B"]⟩ : ArtistNode),
      (⟨"2", "B", some [], none⟩ : ArtistNode)).1.id
        ≠ ((⟨"1", "A", some ["X"], some ["B"]⟩ : ArtistNode),
            (⟨"2", "B", some [], none⟩ : ArtistNode)).2.id
    ∧ ∀ al, ((⟨"1", "A", some ["X"], some ["B"]⟩ : ArtistNode),
          (⟨"2", "B", some [], none⟩ : ArtistNode)).1.aliases = some al →
        ((⟨"1", "A", some ["X"], some ["B"]⟩ : ArtistNode),
          (⟨"2", "B", some [], none⟩ : ArtistNode)).2.name ∉ al :=
  similarTo_no_self_no_alias
    [⟨"1", "A", some ["X"], some ["B"]⟩, ⟨"2", "B", some [], none⟩]
    (⟨"1", "A", some ["X"], some ["B"]⟩, ⟨"2", "B", some [], none⟩)
    (by decide)
